import Mathlib

/-!
Verification of the alphaTex importer (AlphaTexImporter.ts): a shallow
embedding of the data model and of the parser/builder routines the
analysed properties mention, with theorems settling each property.
-/

set_option maxHeartbeats 1000000

namespace AlphaTex

/-- Models the JavaScript `String.prototype.toLowerCase` for the ASCII
keyword spellings used by the grammar. -/
def jsToLower (s : String) : String := String.mk (s.data.map Char.toLower)

/-- Clef values (model enum `Clef`). -/
inductive Clef where
  | Neutral | C3 | C4 | F4 | G2
deriving DecidableEq, Repr

/-- Key signature values (model enum `KeySignature`). -/
inductive KeySignature where
  | Cb | Gb | Db | Ab | Eb | Bb | F | C | G | D | A | E | B | FSharp | CSharp
deriving DecidableEq, Repr

/-- Key signature types (model enum `KeySignatureType`). -/
inductive KeySignatureType where
  | Major | Minor
deriving DecidableEq, Repr

/-- Triplet feel values (model enum `TripletFeel`). -/
inductive TripletFeel where
  | NoTripletFeel | Triplet16th | Triplet8th | Dotted16th | Dotted8th
  | Scottish16th | Scottish8th
deriving DecidableEq, Repr

/-- Embeds `parseClefFromString` (AlphaTexImporter.ts lines 304-325):
a switch over the lowercased string, every unrecognized spelling falls
through to the default `Clef.G2`. -/
def parseClefFromString (str : String) : Clef :=
  if jsToLower str = "g2" ∨ jsToLower str = "treble" then Clef.G2
  else if jsToLower str = "f4" ∨ jsToLower str = "bass" then Clef.F4
  else if jsToLower str = "c3" ∨ jsToLower str = "tenor" then Clef.C3
  else if jsToLower str = "c4" ∨ jsToLower str = "alto" then Clef.C4
  else if jsToLower str = "n" ∨ jsToLower str = "neutral" then Clef.Neutral
  else Clef.G2

/-- Embeds `parseTripletFeelFromString` (lines 347-373): unrecognized
spellings fall through to `TripletFeel.NoTripletFeel`. -/
def parseTripletFeelFromString (str : String) : TripletFeel :=
  if jsToLower str = "no" ∨ jsToLower str = "none" then TripletFeel.NoTripletFeel
  else if jsToLower str = "t16" ∨ jsToLower str = "triplet-16th" then TripletFeel.Triplet16th
  else if jsToLower str = "t8" ∨ jsToLower str = "triplet-8th" then TripletFeel.Triplet8th
  else if jsToLower str = "d16" ∨ jsToLower str = "dotted-16th" then TripletFeel.Dotted16th
  else if jsToLower str = "d8" ∨ jsToLower str = "dotted-8th" then TripletFeel.Dotted8th
  else if jsToLower str = "s16" ∨ jsToLower str = "scottish-16th" then TripletFeel.Scottish16th
  else if jsToLower str = "s8" ∨ jsToLower str = "scottish-8th" then TripletFeel.Scottish8th
  else TripletFeel.NoTripletFeel

/-- Embeds `parseKeySignature` (lines 401-465): unrecognized spellings
fall through to the default `KeySignature.C`. -/
def parseKeySignature (str : String) : KeySignature :=
  if jsToLower str = "cb" ∨ jsToLower str = "cbmajor" then KeySignature.Cb
  else if jsToLower str = "gb" ∨ jsToLower str = "gbmajor" ∨ jsToLower str = "d#minor" then KeySignature.Gb
  else if jsToLower str = "db" ∨ jsToLower str = "dbmajor" ∨ jsToLower str = "bbminor" then KeySignature.Db
  else if jsToLower str = "ab" ∨ jsToLower str = "abmajor" ∨ jsToLower str = "fminor" then KeySignature.Ab
  else if jsToLower str = "eb" ∨ jsToLower str = "ebmajor" ∨ jsToLower str = "cminor" then KeySignature.Eb
  else if jsToLower str = "bb" ∨ jsToLower str = "bbmajor" ∨ jsToLower str = "gminor" then KeySignature.Bb
  else if jsToLower str = "f" ∨ jsToLower str = "fmajor" ∨ jsToLower str = "dminor" then KeySignature.F
  else if jsToLower str = "c" ∨ jsToLower str = "cmajor" ∨ jsToLower str = "aminor" then KeySignature.C
  else if jsToLower str = "g" ∨ jsToLower str = "gmajor" ∨ jsToLower str = "eminor" then KeySignature.G
  else if jsToLower str = "d" ∨ jsToLower str = "dmajor" ∨ jsToLower str = "bminor" then KeySignature.D
  else if jsToLower str = "a" ∨ jsToLower str = "amajor" ∨ jsToLower str = "f#minor" then KeySignature.A
  else if jsToLower str = "e" ∨ jsToLower str = "emajor" ∨ jsToLower str = "c#minor" then KeySignature.E
  else if jsToLower str = "b" ∨ jsToLower str = "bmajor" ∨ jsToLower str = "g#minor" then KeySignature.B
  else if jsToLower str = "f#" ∨ jsToLower str = "f#major" ∨ jsToLower str = "ebminor" then KeySignature.FSharp
  else if jsToLower str = "c#" ∨ jsToLower str = "c#major" then KeySignature.CSharp
  else KeySignature.C

/-- All spellings recognized by the clef switch. -/
def clefSpellings : List String :=
  ["g2", "treble", "f4", "bass", "c3", "tenor", "c4", "alto", "n", "neutral"]

/-- All spellings recognized by the triplet feel switch. -/
def tripletFeelSpellings : List String :=
  ["no", "none", "t16", "triplet-16th", "t8", "triplet-8th", "d16", "dotted-16th",
   "d8", "dotted-8th", "s16", "scottish-16th", "s8", "scottish-8th"]

/-- All spellings recognized by the key signature switch. -/
def keySignatureSpellings : List String :=
  ["cb", "cbmajor", "gb", "gbmajor", "d#minor", "db", "dbmajor", "bbminor",
   "ab", "abmajor", "fminor", "eb", "ebmajor", "cminor", "bb", "bbmajor", "gminor",
   "f", "fmajor", "dminor", "c", "cmajor", "aminor", "g", "gmajor", "eminor",
   "d", "dmajor", "bminor", "a", "amajor", "f#minor", "e", "emajor", "c#minor",
   "b", "bmajor", "g#minor", "f#", "f#major", "ebminor", "c#", "c#major"]

/-- Bend and whammy bar points (model class `BendPoint`); the exact
whammy form may carry negative offsets and values, hence `Int`. -/
structure BendPoint where
  offset : Int
  value : Int
deriving DecidableEq, Repr

/-- Comparison used by the bend and whammy sorting calls
`points.sort((a, b) => a.offset - b.offset)`. -/
def bendPointLE (a b : BendPoint) : Prop := a.offset ≤ b.offset

instance : DecidableRel bendPointLE := fun a b => inferInstanceAs (Decidable (a.offset ≤ b.offset))

instance : IsTotal BendPoint bendPointLE := ⟨fun a b => le_total a.offset b.offset⟩

instance : IsTrans BendPoint bendPointLE := ⟨fun _ _ _ h h2 => le_trans h h2⟩

/-- Ascending sort by offset, modelling the JavaScript
`points.sort((a, b) => a.offset - b.offset)` calls. -/
def sortBendPointsByOffset (ps : List BendPoint) : List BendPoint :=
  List.insertionSort bendPointLE ps

/-- Step used by the non-exact bend form (`noteEffects`, line 1721):
JavaScript `(60 / (count - 1)) | 0`; for one point the division yields
Infinity and `| 0` maps it to 0. -/
def bendOffsetStep (count : Nat) : Nat :=
  if count ≤ 1 then 0 else 60 / (count - 1)

/-- Step used by the non-exact whammy form (`applyBeatEffect`, line 1403):
JavaScript `(60 / count) | 0`. -/
def whammyOffsetStep (count : Nat) : Nat :=
  if count = 0 then 0 else 60 / count

/-- Overwrites offsets with `Math.min(60, i * step)` for the running
index `i`, as both non-exact point loops do. -/
def setEvenOffsets (step : Nat) (ps : List BendPoint) : List BendPoint :=
  ps.enum.map (fun ip => { ip.2 with offset := Int.ofNat (min 60 (ip.1 * step)) })

/-- Embeds the bend point post-processing of `noteEffects`
(lines 1709-1728): truncate to 60 points dropping from the end, then
sort by offset in the exact form or distribute offsets evenly in the
non-exact form. -/
def processBendPoints (exact : Bool) (ps : List BendPoint) : List BendPoint :=
  let kept := ps.take 60
  if exact then sortBendPointsByOffset kept
  else setEvenOffsets (bendOffsetStep kept.length) kept

/-- Embeds the whammy point post-processing of `applyBeatEffect`
(lines 1396-1412): truncate to 60 points dropping from the end, then
distribute offsets evenly in the non-exact form or sort by offset in
the exact form. -/
def processWhammyPoints (exact : Bool) (ps : List BendPoint) : List BendPoint :=
  let kept := ps.take 60
  if exact then sortBendPointsByOffset kept
  else setEvenOffsets (whammyOffsetStep kept.length) kept

/-- Note durations (model enum `Duration`). -/
inductive ADuration where
  | QuadrupleWhole | DoubleWhole | Whole | Half | Quarter | Eighth
  | Sixteenth | ThirtySecond | SixtyFourth | OneHundredTwentyEighth
  | TwoHundredFiftySixth
deriving DecidableEq, Repr

/-- Dynamic values (model enum `DynamicValue`). -/
inductive ADynamicValue where
  | PPP | PP | P | MP | MF | F | FF | FFF
deriving DecidableEq, Repr

/-- Automation types (model enum `AutomationType`). -/
inductive AutomationType where
  | Tempo | Volume | Balance | Instrument
deriving DecidableEq, Repr

/-- Tempo automation events (model class `Automation`); tempo values are
lexed in float mode, modelled by `Rat`. -/
structure Automation where
  isLinear : Bool := false
  type : AutomationType := AutomationType.Tempo
  value : Rat := 0
deriving DecidableEq, Repr

/-- Modelled from the spec: the note entity of the document model (class
`Note` is absent from src); exactly the fields the importer writes in
`note` and `noteEffects` are kept. -/
structure ANote where
  fret : Int := -1
  string : Int := 0
  isDead : Bool := false
  isTieDestination : Bool := false
  octave : Int := -1
  tone : Int := -1
  percussionArticulation : Int := -1
  bendPoints : List BendPoint := []
deriving DecidableEq, Repr

/-- Modelled from the spec: the beat entity of the document model (class
`Beat` is absent from src); `isEmpty` defaults to false, matching the
explicit `emptyBeat.isEmpty = true` assignments the importer needs. -/
structure ABeat where
  notes : List ANote := []
  isEmpty : Bool := false
  duration : ADuration := ADuration.Quarter
  dynamics : ADynamicValue := ADynamicValue.F
  tupletNumerator : Int := -1
  tupletDenominator : Int := -1
  whammyBarPoints : List BendPoint := []
deriving DecidableEq, Repr

/-- Voices own an ordered sequence of beats (model class `Voice`). -/
structure AVoice where
  beats : List ABeat := []
deriving DecidableEq, Repr

/-- Bars own voices and a clef (model class `Bar`). -/
structure ABar where
  clef : Clef := Clef.G2
  voices : List AVoice := []
deriving DecidableEq, Repr

/-- Chords bound to a staff (model class `Chord`, absent from src;
defaults modelled from the spec: visibility flags start true). -/
structure AChord where
  name : String := ""
  showDiagram : Bool := true
  showFingering : Bool := true
  showName : Bool := true
  firstFret : Int := 1
  strings : List Int := []
  barreFrets : List Int := []
deriving DecidableEq, Repr

/-- Staves own bars, a tuning, a capo value, a display transposition, a
percussion flag and a chord dictionary (model class `Staff`); the chord
dictionary is modelled as an association list. -/
structure Staff where
  bars : List ABar := []
  stringTunings : List Nat := []
  displayTranspositionPitch : Int := 0
  capo : Nat := 0
  isPercussion : Bool := false
  chords : List (String × AChord) := []
deriving DecidableEq, Repr

/-- Master bars carry the bar-level metadata shared by all tracks (model
class `MasterBar`); `alternateEndings` is the 32-bit pattern of the
JavaScript number holding the mask. -/
structure AMasterBar where
  index : Nat := 0
  keySignature : KeySignature := KeySignature.C
  keySignatureType : KeySignatureType := KeySignatureType.Major
  timeSignatureNumerator : Nat := 4
  timeSignatureDenominator : Nat := 4
  tripletFeel : TripletFeel := TripletFeel.NoTripletFeel
  alternateEndings : Nat := 0
  isRepeatStart : Bool := false
  repeatCount : Nat := 0
  isAnacrusis : Bool := false
  tempoAutomations : List Automation := []
deriving DecidableEq, Repr

/-- Tracks own staves and playback info (model class `Track`). -/
structure Track where
  name : String := ""
  shortName : String := ""
  program : Nat := 0
  primaryChannel : Nat := 0
  secondaryChannel : Nat := 0
  staves : List Staff := []
deriving DecidableEq, Repr

/-- The score root (model class `Score`). -/
structure Score where
  title : String := ""
  tempo : Rat := 120
  tracks : List Track := []
  masterBars : List AMasterBar := []
deriving DecidableEq, Repr

/-- Modelled from the spec: `Tuning.getDefaultTuningFor(6)` (class absent
from src), the standard six string guitar tuning E4 B3 G3 D3 A2 E2. -/
def defaultTuningFor6 : List Nat := [64, 59, 55, 50, 45, 40]

/-- Embeds `newTrack` (lines 285-297): creates a track with one staff,
program 25, the next two playback channels, a six string default tuning
and a one-octave display drop, and appends it to the score; the second
component is the updated channel counter. -/
def newTrack (score : Score) (trackChannel : Nat) : Score × Nat :=
  let staff : Staff := { stringTunings := defaultTuningFor6, displayTranspositionPitch := -12 }
  let track : Track :=
    { program := 25, primaryChannel := trackChannel, secondaryChannel := trackChannel + 1,
      staves := [staff] }
  ({ score with tracks := score.tracks ++ [track] }, trackChannel + 2)

/-- Applies an update to the track the parser currently points at; the
current track is always the most recently appended one. -/
def updateLastTrack (score : Score) (f : Track → Track) : Score :=
  match score.tracks.getLast? with
  | some t => { score with tracks := score.tracks.dropLast ++ [f t] }
  | none => score

/-- Embeds the `track` branch of `trackStaffMeta` (lines 1028-1047): a
new track is created only when the score already has master bars,
otherwise the implicit initial track is reused; the optional name and
short name are then stored on the current track. -/
def handleTrackMeta (score : Score) (trackChannel : Nat)
    (name shortName : Option String) : Score × Nat :=
  let scoreCh :=
    if 0 < score.masterBars.length then newTrack score trackChannel
    else (score, trackChannel)
  let withName :=
    match name with
    | some n => updateLastTrack scoreCh.1 (fun t => { t with name := n })
    | none => scoreCh.1
  let withShort :=
    match shortName with
    | some sn => updateLastTrack withName (fun t => { t with shortName := sn })
    | none => withName
  (withShort, scoreCh.2)

/-- The bar value created by `newBar` (lines 1200-1209): one fresh voice
and the clef of the previous bar when one exists (the default clef of a
fresh `Bar` is modelled as G2, the model class being absent from src). -/
def newBarValue (staff : Staff) : ABar :=
  { clef :=
      match staff.bars.getLast? with
      | some prev => prev.clef
      | none => Clef.G2,
    voices := [{ beats := [] }] }

/-- Embeds `newBar` (lines 1200-1209): appends the new bar to the staff
and also returns it. -/
def newBar (staff : Staff) : Staff × ABar :=
  ({ staff with bars := staff.bars ++ [newBarValue staff] }, newBarValue staff)

/-- Embeds `addMasterBar` as used by `bar()` (lines 1111-1121): the new
master bar gets the next index and inherits key signature, time
signature and triplet feel from the previous master bar when one
exists. -/
def addMasterBar (score : Score) : Score :=
  let m0 : AMasterBar := { index := score.masterBars.length }
  let m :=
    match score.masterBars.getLast? with
    | some prev =>
        { m0 with
          keySignature := prev.keySignature,
          keySignatureType := prev.keySignatureType,
          timeSignatureNumerator := prev.timeSignatureNumerator,
          timeSignatureDenominator := prev.timeSignatureDenominator,
          tripletFeel := prev.tripletFeel }
    | none => m0
  { score with masterBars := score.masterBars ++ [m] }

/-- Embeds the opening of `bar()` (lines 1108-1121): a new bar is added
to the current staff and, exactly when the staff now has more bars than
the score has master bars, one master bar is appended. -/
def barOpen (score : Score) (staff : Staff) : Score × Staff :=
  let staff1 := (newBar staff).1
  if score.masterBars.length < staff1.bars.length then (addMasterBar score, staff1)
  else (score, staff1)

/-- The padding beat created inside `consolidate` (lines 220-221):
a fresh beat with the empty flag set. -/
def emptyConsolidationBeat : ABeat := { notes := [], isEmpty := true }

/-- Adds a beat to the first voice of a bar, modelling
`bar.voices[0].addBeat(...)`. -/
def addBeatToFirstVoice (bar : ABar) (b : ABeat) : ABar :=
  match bar.voices with
  | [] => bar
  | v :: vs => { bar with voices := { v with beats := v.beats ++ [b] } :: vs }

/-- Embeds the `while` loop of `consolidate` for one staff
(lines 217-224): as long as the staff has fewer bars than the score has
master bars, a new bar holding one empty beat is appended. -/
def consolidateStaff (masterCount : Nat) (staff : Staff) : Staff :=
  if staff.bars.length < masterCount then
    consolidateStaff masterCount
      { staff with
        bars := staff.bars ++ [addBeatToFirstVoice (newBarValue staff) emptyConsolidationBeat] }
  else staff
termination_by masterCount - staff.bars.length
decreasing_by simp; omega

/-- Embeds `consolidate` (lines 215-226): pads every staff of every
track up to the number of master bars. -/
def consolidate (score : Score) : Score :=
  { score with
    tracks := score.tracks.map (fun t =>
      { t with staves := t.staves.map (consolidateStaff score.masterBars.length) }) }

/-- Argument of the `tuning` staff meta: either one of the clearing
keywords piano, none or voice, or a nonempty run of tuning tokens (only
their `realValue` matters here). -/
inductive TuningArg where
  | clear
  | pitches (ts : List Nat)
deriving DecidableEq, Repr

/-- Embeds the `tuning` branch of `handleStaffMeta` (lines 777-810): the
previous string count is recorded, the new tuning is applied (the
clearing keywords also reset the display transposition), and an error
is raised only when the string count changed while the staff already
has chords. -/
def handleTuningMeta (staff : Staff) (arg : TuningArg) : Except String Staff :=
  let strings := staff.stringTunings.length
  let staff1 :=
    match arg with
    | TuningArg.clear => { staff with stringTunings := [], displayTranspositionPitch := 0 }
    | TuningArg.pitches ts => { staff with stringTunings := ts }
  if strings ≠ staff1.stringTunings.length ∧ 0 < staff1.chords.length then
    Except.error "Tuning must be defined before any chord"
  else Except.ok staff1

/-- Note-collection outcome of one `beat()` call (lines 1221-1242):
either a parenthesized run of simultaneous notes, the explicit rest
letter r, or a single note production whose parse may fail. -/
inductive BeatContent where
  | parens (notes : List ANote)
  | rest
  | single (note : Option ANote)
deriving DecidableEq, Repr

/-- Embeds the beat construction of `beat()` (lines 1211-1255): a fresh
beat is appended to the voice, receives the parsed notes, and on a
failed single-note parse is spliced out again with `false` returned;
the running duration and dynamics are stored on the surviving beat. -/
def beatStep (voice : AVoice) (content : BeatContent)
    (dur : ADuration) (dyn : ADynamicValue) : AVoice × Bool :=
  match content with
  | BeatContent.parens ns =>
      ({ voice with beats := voice.beats ++ [{ notes := ns, duration := dur, dynamics := dyn }] },
       true)
  | BeatContent.rest =>
      ({ voice with beats := voice.beats ++ [{ notes := [], duration := dur, dynamics := dyn }] },
       true)
  | BeatContent.single (some n) =>
      ({ voice with beats := voice.beats ++ [{ notes := [n], duration := dur, dynamics := dyn }] },
       true)
  | BeatContent.single none => (voice, false)

/-- Embeds the tail of `bar()` (lines 1191-1195): a bar whose voice
ended up with no beats receives one synthesized beat with the empty
flag set. -/
def barFinishVoice (voice : AVoice) : AVoice :=
  if voice.beats.length = 0 then { voice with beats := [{ notes := [], isEmpty := true }] }
  else voice

/-- Modelled from the spec: the finalize behaviour of the document model
(`Score.finish`, absent from src) under which a beat holding no notes
carries the empty flag in the final document. -/
def finishBeat (b : ABeat) : ABeat :=
  if b.notes.length = 0 then { b with isEmpty := true } else b

/-- Embeds the beat repetition tail of `beat()` (lines 1259-1274)
applied to a voice that already ends with the finished beat: `*N` adds
N - 1 clones. Modelled from the spec: `BeatCloner.clone` (generated
code absent from src) produces a full structural deep copy, which in
this value-level embedding is the beat value itself. -/
def applyBeatRepeat (voice : AVoice) (beat : ABeat) (beatRepeat : Nat) : AVoice :=
  { voice with beats := voice.beats ++ List.replicate (beatRepeat - 1) beat }

/-- Embeds `applyAlternateEnding` (lines 2060-2069): values below 1 are
rejected; otherwise `1 << (num - 1)` is OR-ed into the mask. The
JavaScript shift masks its count to five bits and operates on 32-bit
integers, so the stored pattern gains bit `(num - 1) % 32`. -/
def applyAlternateEnding (master : AMasterBar) (num : Nat) : Except String AMasterBar :=
  if num < 1 then Except.error "alternateending"
  else
    Except.ok
      { master with alternateEndings := master.alternateEndings ||| (1 <<< ((num - 1) % 32)) }

/-- Folds `applyAlternateEnding` over the values of one `ae` meta
(single value or parenthesized list, lines 1939-1959). -/
def applyAlternateEndings (master : AMasterBar) (nums : List Nat) : Except String AMasterBar :=
  match nums with
  | [] => Except.ok master
  | n :: rest =>
      match applyAlternateEnding master n with
      | Except.error e => Except.error e
      | Except.ok m => applyAlternateEndings m rest

/-- The tempo automation value built by `readTempoAutomation`
(lines 2045-2058). -/
def tempoAutomationOf (v : Rat) : Automation :=
  { isLinear := false, type := AutomationType.Tempo, value := v }

/-- Bar-level meta commands handled by `barMeta` (lines 1908-2033),
restricted to the commands that write master bar fields; the clef
command writes only the bar and the section command only builds a
section marker, so they are not represented here. -/
inductive BarMetaCmd where
  | ts (num den : Nat)
  | ro
  | rc (count : Nat)
  | ae (nums : List Nat)
  | ks (name : String)
  | tempo (value : Rat)
  | tf (name : String)
  | ac
deriving DecidableEq, Repr

/-- Recognizes the tempo bar meta. -/
def BarMetaCmd.isTempo : BarMetaCmd → Bool
  | BarMetaCmd.tempo _ => true
  | _ => false

/-- Embeds the handling of one bar meta command by `barMeta`
(lines 1911-2033) on the master bar. -/
def applyBarMetaCmd (master : AMasterBar) (c : BarMetaCmd) : Except String AMasterBar :=
  match c with
  | BarMetaCmd.ts n d =>
      Except.ok { master with timeSignatureNumerator := n, timeSignatureDenominator := d }
  | BarMetaCmd.ro => Except.ok { master with isRepeatStart := true }
  | BarMetaCmd.rc n =>
      if 2048 < n then Except.error "repeatclose" else Except.ok { master with repeatCount := n }
  | BarMetaCmd.ae ns => applyAlternateEndings master ns
  | BarMetaCmd.ks s => Except.ok { master with keySignature := parseKeySignature s }
  | BarMetaCmd.tempo v =>
      Except.ok { master with tempoAutomations := master.tempoAutomations ++ [tempoAutomationOf v] }
  | BarMetaCmd.tf s => Except.ok { master with tripletFeel := parseTripletFeelFromString s }
  | BarMetaCmd.ac => Except.ok { master with isAnacrusis := true }

/-- Runs all bar meta commands of one bar in order. -/
def applyBarMetaCmds (master : AMasterBar) (cs : List BarMetaCmd) : Except String AMasterBar :=
  match cs with
  | [] => Except.ok master
  | c :: rest =>
      match applyBarMetaCmd master c with
      | Except.error e => Except.error e
      | Except.ok m => applyBarMetaCmds m rest

/-- Embeds `barMeta` (lines 1908-2043) on the master bar: after the
commands, a master bar of index 0 that still has no tempo automation
receives one carrying the global score tempo. -/
def barMeta (scoreTempo : Rat) (cs : List BarMetaCmd) (master : AMasterBar) :
    Except String AMasterBar :=
  match applyBarMetaCmds master cs with
  | Except.error e => Except.error e
  | Except.ok m =>
      if m.index = 0 ∧ m.tempoAutomations.length = 0 then
        Except.ok { m with tempoAutomations := m.tempoAutomations ++ [tempoAutomationOf scoreTempo] }
      else
        Except.ok m

/-- Value of one chord property entry: the lexer delivers either a
string or a number symbol there. -/
inductive ChordPropValue where
  | str (s : String)
  | num (n : Int)
deriving DecidableEq, Repr

/-- Embeds the `showfingering` case of `chordProperties`
(lines 960-974): a string value writes the showDiagram flag (source
behaviour), a numeric value writes the showFingering flag. -/
def chordPropShowFingering (chord : AChord) (v : ChordPropValue) : AChord :=
  match v with
  | ChordPropValue.str s => { chord with showDiagram := jsToLower s ≠ "false" }
  | ChordPropValue.num n => { chord with showFingering := n ≠ 0 }

/-- Embeds the `showdiagram` case of `chordProperties` (lines 945-959)
for contrast: both value kinds write the showDiagram flag. -/
def chordPropShowDiagram (chord : AChord) (v : ChordPropValue) : AChord :=
  match v with
  | ChordPropValue.str s => { chord with showDiagram := jsToLower s ≠ "false" }
  | ChordPropValue.num n => { chord with showDiagram := n ≠ 0 }

/-- A bar produced by the consolidation padding: one voice holding
exactly one beat marked empty. -/
def isPadBar (b : ABar) : Prop :=
  b.voices.map AVoice.beats = [[emptyConsolidationBeat]]

/-- Concrete staff used to test tuning redefinition: a six string staff
on which one chord has already been declared. -/
def chordStaffExample : Staff :=
  { stringTunings := [64, 59, 55, 50, 45, 40], chords := [("a00", {})] }

theorem updateLastTrack_length (s : Score) (f : Track → Track) :
    (updateLastTrack s f).tracks.length = s.tracks.length := by
  unfold updateLastTrack
  cases hl : s.tracks.getLast? with
  | none => rfl
  | some t =>
      have hne : s.tracks ≠ [] := by
        intro he
        rw [he] at hl
        exact Option.noConfusion hl
      have hpos : 0 < s.tracks.length := List.length_pos.mpr hne
      simp [List.length_dropLast]
      omega

theorem updateLastTrack_singleton (s : Score) (f : Track → Track) (t0 : Track)
    (h : s.tracks = [t0]) : (updateLastTrack s f).tracks = [f t0] := by
  unfold updateLastTrack
  rw [h]
  simp

/-- C10: in a chord properties block, a `showfingering` entry whose
value is a string sets the showDiagram flag (true unless the string
lowercases to false) and leaves showFingering unchanged; only a
numeric value writes showFingering (to value different from 0), and it
leaves showDiagram unchanged. -/
theorem atex_C10 :
    ∀ (c : AChord) (s : String) (n : Int),
      ((chordPropShowFingering c (ChordPropValue.str s)).showFingering = c.showFingering ∧
       (chordPropShowFingering c (ChordPropValue.str s)).showDiagram =
         decide (jsToLower s ≠ "false") ∧
       (chordPropShowFingering c (ChordPropValue.str s)).showName = c.showName) ∧
      ((chordPropShowFingering c (ChordPropValue.num n)).showFingering = decide (n ≠ 0) ∧
       (chordPropShowFingering c (ChordPropValue.num n)).showDiagram = c.showDiagram) := by
  intro c s n
  exact ⟨⟨rfl, rfl, rfl⟩, rfl, rfl⟩

/-- C7: a `track` meta before any master bar exists reuses the implicit
first track (track count unchanged, name applied to it); once master
bars exist it appends a new track. -/
theorem atex_C7 :
    ∀ (score : Score) (ch : Nat) (name shortName : Option String),
      (score.masterBars.length = 0 →
        (handleTrackMeta score ch name shortName).1.tracks.length = score.tracks.length) ∧
      (0 < score.masterBars.length →
        (handleTrackMeta score ch name shortName).1.tracks.length = score.tracks.length + 1) ∧
      (score.masterBars.length = 0 → ∀ t0 : Track, score.tracks = [t0] → ∀ nm : String,
        name = some nm →
        ((handleTrackMeta score ch name shortName).1.tracks.map Track.name = [nm])) := by
  intro score ch name shortName
  refine ⟨?_, ?_, ?_⟩
  · intro h0
    unfold handleTrackMeta
    rw [if_neg (by omega)]
    cases name with
    | none =>
        cases shortName with
        | none => rfl
        | some sn => simp [updateLastTrack_length]
    | some nm =>
        cases shortName with
        | none => simp [updateLastTrack_length]
        | some sn => simp [updateLastTrack_length]
  · intro hpos
    unfold handleTrackMeta
    rw [if_pos hpos]
    have hnew : ((newTrack score ch).1).tracks.length = score.tracks.length + 1 := by
      simp [newTrack]
    cases name with
    | none =>
        cases shortName with
        | none => simpa using hnew
        | some sn => simp [updateLastTrack_length, hnew]
    | some nm =>
        cases shortName with
        | none => simp [updateLastTrack_length, hnew]
        | some sn => simp [updateLastTrack_length, hnew]
  · intro h0 t0 ht nm hnm
    unfold handleTrackMeta
    rw [if_neg (by omega), hnm]
    cases shortName with
    | none =>
        rw [updateLastTrack_singleton score _ t0 ht]
        rfl
    | some sn =>
        have h1 := updateLastTrack_singleton score (fun t => { t with name := nm }) t0 ht
        have h2 : (updateLastTrack (updateLastTrack score (fun t => { t with name := nm }))
            (fun t => { t with shortName := sn })).tracks =
            [{ { t0 with name := nm } with shortName := sn }] := by
          apply updateLastTrack_singleton
          exact h1
        simp only [h2]
        rfl

/-- C2 counterexample: on a six string staff that already holds a chord,
a `tuning` meta carrying six different pitches is accepted and applied,
not rejected. -/
theorem atex_C2_counterexample :
    handleTuningMeta chordStaffExample (TuningArg.pitches [62, 57, 53, 48, 43, 38]) =
      Except.ok { chordStaffExample with stringTunings := [62, 57, 53, 48, 43, 38] } ∧
    0 < chordStaffExample.chords.length ∧
    chordStaffExample.stringTunings ≠ [62, 57, 53, 48, 43, 38] := by
  refine ⟨rfl, by decide, by decide⟩

/-- C2 amended: once a chord exists on the staff, a `tuning` staff meta
is rejected with the error exactly when it changes the number of
strings; a redefinition keeping the string count is applied silently. -/
theorem atex_C2 :
    ∀ (staff : Staff) (ts : List Nat), 0 < staff.chords.length →
      ((ts.length = staff.stringTunings.length →
          handleTuningMeta staff (TuningArg.pitches ts) =
            Except.ok { staff with stringTunings := ts }) ∧
       (ts.length ≠ staff.stringTunings.length →
          handleTuningMeta staff (TuningArg.pitches ts) =
            Except.error "Tuning must be defined before any chord") ∧
       (0 < staff.stringTunings.length →
          handleTuningMeta staff TuningArg.clear =
            Except.error "Tuning must be defined before any chord")) := by
  intro staff ts hch
  refine ⟨?_, ?_, ?_⟩
  · intro hlen
    unfold handleTuningMeta
    rw [if_neg]
    intro hcon
    exact hcon.1 hlen.symm
  · intro hlen
    unfold handleTuningMeta
    rw [if_pos]
    exact ⟨fun he => hlen (he.symm), hch⟩
  · intro hpos
    unfold handleTuningMeta
    rw [if_pos]
    refine ⟨?_, hch⟩
    simp only [List.length_nil]
    omega

theorem atex_C2_witness :
    0 < chordStaffExample.chords.length ∧
    ([40, 45, 50, 55, 59, 64] : List Nat).length = chordStaffExample.stringTunings.length ∧
    handleTuningMeta chordStaffExample (TuningArg.pitches [40, 45, 50, 55, 59, 64]) =
      Except.ok { chordStaffExample with stringTunings := [40, 45, 50, 55, 59, 64] } :=
  ⟨by decide, by decide,
    (atex_C2 chordStaffExample [40, 45, 50, 55, 59, 64] (by decide)).1 (by decide)⟩

/-- C5 counterexample: the alternate ending value 33 is accepted but
stores the pattern 1, whose bit 32 is clear: the shift count wraps, so
bit n - 1 is not set for n = 33. -/
theorem atex_C5_counterexample :
    applyAlternateEnding ({} : AMasterBar) 33 =
      Except.ok { ({} : AMasterBar) with alternateEndings := 1 } ∧
    Nat.testBit 1 32 = false := by
  exact ⟨rfl, by decide⟩

/-- C5 amended: value 0 aborts with an error; a value n with n at least
1 OR-s the single bit `(n - 1) % 32` into the 32-bit mask (JavaScript
shift semantics), preserving previously set bits, so bit n - 1 itself
is set whenever n is at most 32. -/
theorem atex_C5 :
    ∀ (m : AMasterBar) (n : Nat),
      (n = 0 → applyAlternateEnding m n = Except.error "alternateending") ∧
      (1 ≤ n →
        (applyAlternateEnding m n =
          Except.ok { m with alternateEndings := m.alternateEndings ||| (1 <<< ((n - 1) % 32)) } ∧
         Nat.testBit (m.alternateEndings ||| (1 <<< ((n - 1) % 32))) ((n - 1) % 32) = true ∧
         (∀ k, Nat.testBit m.alternateEndings k = true →
           Nat.testBit (m.alternateEndings ||| (1 <<< ((n - 1) % 32))) k = true) ∧
         (n ≤ 32 →
           Nat.testBit (m.alternateEndings ||| (1 <<< ((n - 1) % 32))) (n - 1) = true))) := by
  intro m n
  constructor
  · intro h0
    unfold applyAlternateEnding
    rw [if_pos (by omega)]
  · intro h1
    refine ⟨?_, ?_, ?_, ?_⟩
    · unfold applyAlternateEnding
      rw [if_neg (by omega)]
    · simp [Nat.testBit_or, Nat.one_shiftLeft, Nat.testBit_two_pow_self]
    · intro k hk
      simp [Nat.testBit_or, hk]
    · intro h32
      have hmod : (n - 1) % 32 = n - 1 := Nat.mod_eq_of_lt (by omega)
      rw [hmod]
      simp [Nat.testBit_or, Nat.one_shiftLeft, Nat.testBit_two_pow_self]

theorem atex_C5_witness :
    applyAlternateEnding ({} : AMasterBar) 0 = Except.error "alternateending" ∧
    Nat.testBit (({} : AMasterBar).alternateEndings ||| (1 <<< ((3 - 1) % 32))) (3 - 1) = true :=
  ⟨(atex_C5 {} 0).1 rfl, ((atex_C5 {} 3).2 (by decide)).2.2.2 (by decide)⟩

/-- C6: a beat followed by `*N` with N at least 1 leaves the voice with
N copies of the finished beat (the original plus N - 1 clones), each
structurally equal to it, and overwriting any one clone leaves the
original beat and every other copy unchanged. -/
theorem atex_C6 :
    ∀ (pre : List ABeat) (b : ABeat) (n : Nat), 1 ≤ n →
      ((applyBeatRepeat { beats := pre ++ [b] } b n).beats.length = pre.length + n ∧
       (∀ i, i < n →
         (applyBeatRepeat { beats := pre ++ [b] } b n).beats[pre.length + i]? = some b) ∧
       (∀ (b2 : ABeat) (i : Nat), 1 ≤ i → i < n →
         (((applyBeatRepeat { beats := pre ++ [b] } b n).beats.set
             (pre.length + i) b2)[pre.length]? = some b ∧
          ∀ j, j < n → j ≠ i →
            ((applyBeatRepeat { beats := pre ++ [b] } b n).beats.set
               (pre.length + i) b2)[pre.length + j]? = some b))) := by
  intro pre b n hn
  have hrep : (applyBeatRepeat { beats := pre ++ [b] } b n).beats =
      pre ++ List.replicate n b := by
    show (pre ++ [b]) ++ List.replicate (n - 1) b = pre ++ List.replicate n b
    rw [List.append_assoc]
    congr 1
    cases n with
    | zero => omega
    | succ k => simp [List.replicate_succ]
  rw [hrep]
  have hidx : ∀ i, i < n → (pre ++ List.replicate n b)[pre.length + i]? = some b := by
    intro i hi
    rw [List.getElem?_append_right (by omega)]
    simp [List.getElem?_replicate, hi]
  refine ⟨by simp, hidx, ?_⟩
  intro b2 i h1i hin
  have hne : ∀ j, j ≠ i → pre.length + i ≠ pre.length + j := by omega
  constructor
  · have h0 : pre.length + i ≠ pre.length := by omega
    rw [List.getElem?_set_ne h0]
    have := hidx 0 (by omega)
    simpa using this
  · intro j hj hji
    rw [List.getElem?_set_ne (hne j (by omega))]
    exact hidx j hj

/-- C8: a clef, triplet feel or key signature string outside the
recognized spellings never raises an error and silently falls back to
the default (G2, NoTripletFeel, C), while the recognized spellings map
to their documented values. -/
theorem atex_C8 :
    (∀ s : String, jsToLower s ∉ clefSpellings → parseClefFromString s = Clef.G2) ∧
    (∀ s : String, jsToLower s ∉ tripletFeelSpellings →
      parseTripletFeelFromString s = TripletFeel.NoTripletFeel) ∧
    (∀ s : String, jsToLower s ∉ keySignatureSpellings → parseKeySignature s = KeySignature.C) ∧
    (parseClefFromString "g2" = Clef.G2 ∧ parseClefFromString "treble" = Clef.G2 ∧
     parseClefFromString "f4" = Clef.F4 ∧ parseClefFromString "bass" = Clef.F4 ∧
     parseClefFromString "c3" = Clef.C3 ∧ parseClefFromString "tenor" = Clef.C3 ∧
     parseClefFromString "c4" = Clef.C4 ∧ parseClefFromString "alto" = Clef.C4 ∧
     parseClefFromString "n" = Clef.Neutral ∧ parseClefFromString "neutral" = Clef.Neutral) ∧
    (parseTripletFeelFromString "no" = TripletFeel.NoTripletFeel ∧
     parseTripletFeelFromString "none" = TripletFeel.NoTripletFeel ∧
     parseTripletFeelFromString "t16" = TripletFeel.Triplet16th ∧
     parseTripletFeelFromString "triplet-16th" = TripletFeel.Triplet16th ∧
     parseTripletFeelFromString "t8" = TripletFeel.Triplet8th ∧
     parseTripletFeelFromString "triplet-8th" = TripletFeel.Triplet8th ∧
     parseTripletFeelFromString "d16" = TripletFeel.Dotted16th ∧
     parseTripletFeelFromString "dotted-16th" = TripletFeel.Dotted16th ∧
     parseTripletFeelFromString "d8" = TripletFeel.Dotted8th ∧
     parseTripletFeelFromString "dotted-8th" = TripletFeel.Dotted8th ∧
     parseTripletFeelFromString "s16" = TripletFeel.Scottish16th ∧
     parseTripletFeelFromString "scottish-16th" = TripletFeel.Scottish16th ∧
     parseTripletFeelFromString "s8" = TripletFeel.Scottish8th ∧
     parseTripletFeelFromString "scottish-8th" = TripletFeel.Scottish8th) ∧
    (parseKeySignature "cb" = KeySignature.Cb ∧ parseKeySignature "cbmajor" = KeySignature.Cb ∧
     parseKeySignature "gb" = KeySignature.Gb ∧ parseKeySignature "gbmajor" = KeySignature.Gb ∧
     parseKeySignature "d#minor" = KeySignature.Gb ∧
     parseKeySignature "db" = KeySignature.Db ∧ parseKeySignature "dbmajor" = KeySignature.Db ∧
     parseKeySignature "bbminor" = KeySignature.Db ∧
     parseKeySignature "ab" = KeySignature.Ab ∧ parseKeySignature "abmajor" = KeySignature.Ab ∧
     parseKeySignature "fminor" = KeySignature.Ab ∧
     parseKeySignature "eb" = KeySignature.Eb ∧ parseKeySignature "ebmajor" = KeySignature.Eb ∧
     parseKeySignature "cminor" = KeySignature.Eb ∧
     parseKeySignature "bb" = KeySignature.Bb ∧ parseKeySignature "bbmajor" = KeySignature.Bb ∧
     parseKeySignature "gminor" = KeySignature.Bb ∧
     parseKeySignature "f" = KeySignature.F ∧ parseKeySignature "fmajor" = KeySignature.F ∧
     parseKeySignature "dminor" = KeySignature.F ∧
     parseKeySignature "c" = KeySignature.C ∧ parseKeySignature "cmajor" = KeySignature.C ∧
     parseKeySignature "aminor" = KeySignature.C ∧
     parseKeySignature "g" = KeySignature.G ∧ parseKeySignature "gmajor" = KeySignature.G ∧
     parseKeySignature "eminor" = KeySignature.G ∧
     parseKeySignature "d" = KeySignature.D ∧ parseKeySignature "dmajor" = KeySignature.D ∧
     parseKeySignature "bminor" = KeySignature.D ∧
     parseKeySignature "a" = KeySignature.A ∧ parseKeySignature "amajor" = KeySignature.A ∧
     parseKeySignature "f#minor" = KeySignature.A ∧
     parseKeySignature "e" = KeySignature.E ∧ parseKeySignature "emajor" = KeySignature.E ∧
     parseKeySignature "c#minor" = KeySignature.E ∧
     parseKeySignature "b" = KeySignature.B ∧ parseKeySignature "bmajor" = KeySignature.B ∧
     parseKeySignature "g#minor" = KeySignature.B ∧
     parseKeySignature "f#" = KeySignature.FSharp ∧
     parseKeySignature "f#major" = KeySignature.FSharp ∧
     parseKeySignature "ebminor" = KeySignature.FSharp ∧
     parseKeySignature "c#" = KeySignature.CSharp ∧
     parseKeySignature "c#major" = KeySignature.CSharp) := by
  refine ⟨?_, ?_, ?_, by decide, by decide, by decide⟩
  · intro s h
    have hk : ∀ x, x ∈ clefSpellings → jsToLower s ≠ x := fun x hx he => h (he ▸ hx)
    unfold parseClefFromString
    rw [if_neg (by rintro (he | he) <;> exact hk _ (by decide) he)]
    rw [if_neg (by rintro (he | he) <;> exact hk _ (by decide) he)]
    rw [if_neg (by rintro (he | he) <;> exact hk _ (by decide) he)]
    rw [if_neg (by rintro (he | he) <;> exact hk _ (by decide) he)]
    rw [if_neg (by rintro (he | he) <;> exact hk _ (by decide) he)]
  · intro s h
    have hk : ∀ x, x ∈ tripletFeelSpellings → jsToLower s ≠ x := fun x hx he => h (he ▸ hx)
    unfold parseTripletFeelFromString
    rw [if_neg (by rintro (he | he) <;> exact hk _ (by decide) he)]
    rw [if_neg (by rintro (he | he) <;> exact hk _ (by decide) he)]
    rw [if_neg (by rintro (he | he) <;> exact hk _ (by decide) he)]
    rw [if_neg (by rintro (he | he) <;> exact hk _ (by decide) he)]
    rw [if_neg (by rintro (he | he) <;> exact hk _ (by decide) he)]
    rw [if_neg (by rintro (he | he) <;> exact hk _ (by decide) he)]
    rw [if_neg (by rintro (he | he) <;> exact hk _ (by decide) he)]
  · intro s h
    have hk : ∀ x, x ∈ keySignatureSpellings → jsToLower s ≠ x := fun x hx he => h (he ▸ hx)
    unfold parseKeySignature
    rw [if_neg (by rintro (he | he) <;> exact hk _ (by decide) he)]
    rw [if_neg (by rintro (he | he | he) <;> exact hk _ (by decide) he)]
    rw [if_neg (by rintro (he | he | he) <;> exact hk _ (by decide) he)]
    rw [if_neg (by rintro (he | he | he) <;> exact hk _ (by decide) he)]
    rw [if_neg (by rintro (he | he | he) <;> exact hk _ (by decide) he)]
    rw [if_neg (by rintro (he | he | he) <;> exact hk _ (by decide) he)]
    rw [if_neg (by rintro (he | he | he) <;> exact hk _ (by decide) he)]
    rw [if_neg (by rintro (he | he | he) <;> exact hk _ (by decide) he)]
    rw [if_neg (by rintro (he | he | he) <;> exact hk _ (by decide) he)]
    rw [if_neg (by rintro (he | he | he) <;> exact hk _ (by decide) he)]
    rw [if_neg (by rintro (he | he | he) <;> exact hk _ (by decide) he)]
    rw [if_neg (by rintro (he | he | he) <;> exact hk _ (by decide) he)]
    rw [if_neg (by rintro (he | he | he) <;> exact hk _ (by decide) he)]
    rw [if_neg (by rintro (he | he | he) <;> exact hk _ (by decide) he)]
    rw [if_neg (by rintro (he | he) <;> exact hk _ (by decide) he)]

theorem atex_C8_witness :
    jsToLower "Largo" ∉ clefSpellings ∧ parseClefFromString "Largo" = Clef.G2 ∧
    jsToLower "Largo" ∉ tripletFeelSpellings ∧
    parseTripletFeelFromString "Largo" = TripletFeel.NoTripletFeel ∧
    jsToLower "Largo" ∉ keySignatureSpellings ∧ parseKeySignature "Largo" = KeySignature.C :=
  ⟨by decide, atex_C8.1 "Largo" (by decide), by decide,
   atex_C8.2.1 "Largo" (by decide), by decide, atex_C8.2.2.1 "Largo" (by decide)⟩

theorem setEvenOffsets_map_value (step : Nat) (ps : List BendPoint) :
    (setEvenOffsets step ps).map BendPoint.value = ps.map BendPoint.value := by
  unfold setEvenOffsets
  rw [List.map_map]
  have hc : (BendPoint.value ∘ fun ip : Nat × BendPoint =>
      ({ ip.2 with offset := Int.ofNat (min 60 (ip.1 * step)) } : BendPoint)) =
      (BendPoint.value ∘ Prod.snd) := rfl
  rw [hc, ← List.map_map, List.enum_map_snd]

theorem setEvenOffsets_map_offset (step : Nat) (ps : List BendPoint) :
    (setEvenOffsets step ps).map BendPoint.offset =
      (List.range ps.length).map (fun i => Int.ofNat (min 60 (i * step))) := by
  unfold setEvenOffsets
  rw [List.map_map]
  have hc : (BendPoint.offset ∘ fun ip : Nat × BendPoint =>
      ({ ip.2 with offset := Int.ofNat (min 60 (ip.1 * step)) } : BendPoint)) =
      ((fun i => Int.ofNat (min 60 (i * step))) ∘ Prod.fst) := rfl
  rw [hc, ← List.map_map, List.enum_map_fst]

theorem setEvenOffsets_length (step : Nat) (ps : List BendPoint) :
    (setEvenOffsets step ps).length = ps.length := by
  simp [setEvenOffsets]

theorem setEvenOffsets_pairwise (step : Nat) (ps : List BendPoint) :
    (setEvenOffsets step ps).Pairwise bendPointLE := by
  have hmap := setEvenOffsets_map_offset step ps
  have h1 : ((setEvenOffsets step ps).map BendPoint.offset).Pairwise (· ≤ ·) := by
    rw [hmap]
    refine List.pairwise_map.mpr ?_
    refine List.Pairwise.imp ?_ (List.pairwise_lt_range ps.length)
    intro a b hab
    have hmul : a * step ≤ b * step := Nat.mul_le_mul_right step (Nat.le_of_lt hab)
    exact Int.ofNat_le.mpr (min_le_min (le_refl 60) hmul)
  exact (@List.pairwise_map BendPoint Int BendPoint.offset (fun a b => a ≤ b)
    (setEvenOffsets step ps)).mp h1

theorem setEvenOffsets_offset_bounds (step : Nat) (ps : List BendPoint) :
    ∀ p ∈ setEvenOffsets step ps, 0 ≤ p.offset ∧ p.offset ≤ 60 := by
  intro p hp
  have h1 : p.offset ∈ (setEvenOffsets step ps).map BendPoint.offset :=
    List.mem_map_of_mem _ hp
  rw [setEvenOffsets_map_offset] at h1
  obtain ⟨i, _, he⟩ := List.mem_map.mp h1
  constructor
  · rw [← he]
    exact Int.ofNat_nonneg _
  · rw [← he]
    exact Int.ofNat_le.mpr (min_le_left _ _)

/-- C3: every processed bend and whammy point list keeps at most 60
points (the kept points are the first 60, extras dropped from the
end); the exact forms are a permutation of the kept points sorted
ascending by offset; the non-exact forms keep the values of the kept
points in order and overwrite their offsets with the evenly spaced,
ascending progression `min 60 (i * step)` inside the 0 to 60 range. -/
theorem atex_C3 :
    ∀ ps : List BendPoint,
      ((processBendPoints true ps).length ≤ 60 ∧
       (processBendPoints false ps).length ≤ 60 ∧
       (processWhammyPoints true ps).length ≤ 60 ∧
       (processWhammyPoints false ps).length ≤ 60) ∧
      (List.Perm (processBendPoints true ps) (ps.take 60) ∧
       (processBendPoints true ps).Pairwise bendPointLE) ∧
      (List.Perm (processWhammyPoints true ps) (ps.take 60) ∧
       (processWhammyPoints true ps).Pairwise bendPointLE) ∧
      ((processBendPoints false ps).map BendPoint.value = (ps.take 60).map BendPoint.value ∧
       (processBendPoints false ps).map BendPoint.offset =
         (List.range (ps.take 60).length).map
           (fun i => Int.ofNat (min 60 (i * bendOffsetStep (ps.take 60).length))) ∧
       (processBendPoints false ps).Pairwise bendPointLE ∧
       (∀ p ∈ processBendPoints false ps, 0 ≤ p.offset ∧ p.offset ≤ 60)) ∧
      ((processWhammyPoints false ps).map BendPoint.value = (ps.take 60).map BendPoint.value ∧
       (processWhammyPoints false ps).map BendPoint.offset =
         (List.range (ps.take 60).length).map
           (fun i => Int.ofNat (min 60 (i * whammyOffsetStep (ps.take 60).length))) ∧
       (processWhammyPoints false ps).Pairwise bendPointLE ∧
       (∀ p ∈ processWhammyPoints false ps, 0 ≤ p.offset ∧ p.offset ≤ 60)) := by
  intro ps
  have hlenkept : (ps.take 60).length ≤ 60 := by
    rw [List.length_take]
    exact min_le_left _ _
  refine ⟨⟨?_, ?_, ?_, ?_⟩, ⟨?_, ?_⟩, ⟨?_, ?_⟩, ⟨?_, ?_, ?_, ?_⟩, ⟨?_, ?_, ?_, ?_⟩⟩
  · show (sortBendPointsByOffset (ps.take 60)).length ≤ 60
    unfold sortBendPointsByOffset
    rw [(List.perm_insertionSort bendPointLE (ps.take 60)).length_eq]
    exact hlenkept
  · show (setEvenOffsets _ (ps.take 60)).length ≤ 60
    rw [setEvenOffsets_length]
    exact hlenkept
  · show (sortBendPointsByOffset (ps.take 60)).length ≤ 60
    unfold sortBendPointsByOffset
    rw [(List.perm_insertionSort bendPointLE (ps.take 60)).length_eq]
    exact hlenkept
  · show (setEvenOffsets _ (ps.take 60)).length ≤ 60
    rw [setEvenOffsets_length]
    exact hlenkept
  · exact List.perm_insertionSort bendPointLE (ps.take 60)
  · exact List.sorted_insertionSort bendPointLE (ps.take 60)
  · exact List.perm_insertionSort bendPointLE (ps.take 60)
  · exact List.sorted_insertionSort bendPointLE (ps.take 60)
  · exact setEvenOffsets_map_value _ _
  · exact setEvenOffsets_map_offset _ _
  · exact setEvenOffsets_pairwise _ _
  · exact setEvenOffsets_offset_bounds _ _
  · exact setEvenOffsets_map_value _ _
  · exact setEvenOffsets_map_offset _ _
  · exact setEvenOffsets_pairwise _ _
  · exact setEvenOffsets_offset_bounds _ _

theorem atex_C3_witness :
    (0 : Int) ≤ (BendPoint.mk 0 4).offset ∧ (BendPoint.mk 0 4).offset ≤ 60 :=
  (atex_C3 [BendPoint.mk 0 4]).2.2.2.1.2.2.2 (BendPoint.mk 0 4) (by decide)

theorem consolidateStaff_bars (n : Nat) (s : Staff) :
    ∃ pad : List ABar,
      (consolidateStaff n s).bars = s.bars ++ pad ∧
      (∀ b ∈ pad, isPadBar b) ∧
      (consolidateStaff n s).bars.length = max s.bars.length n := by
  generalize hk : n - s.bars.length = k
  induction k generalizing s with
  | zero =>
      rw [consolidateStaff, if_neg (by omega)]
      refine ⟨[], by simp, ?_, by omega⟩
      intro b hb
      cases hb
  | succ k ih =>
      have hlt : s.bars.length < n := by omega
      rw [consolidateStaff, if_pos hlt]
      obtain ⟨pad, h1, h2, h3⟩ :=
        ih { s with
              bars := s.bars ++ [addBeatToFirstVoice (newBarValue s) emptyConsolidationBeat] }
          (by simp; omega)
      refine ⟨addBeatToFirstVoice (newBarValue s) emptyConsolidationBeat :: pad, ?_, ?_, ?_⟩
      · rw [h1]
        simp
      · intro b hb
        rcases List.mem_cons.mp hb with hb1 | hb2
        · subst hb1
          rfl
        · exact h2 b hb2
      · rw [h3]
        simp only [List.length_append, List.length_cons, List.length_nil]
        omega

/-- C1: creating a bar never lets a staff exceed the master bar count
(a master bar is appended exactly when needed), and the consolidation
pass brings every staff of every track up to exactly the master bar
count, the appended bars each holding one voice with one beat marked
empty. -/
theorem atex_C1 :
    (∀ (score : Score) (staff : Staff),
       staff.bars.length ≤ score.masterBars.length →
       ((barOpen score staff).2.bars.length ≤ (barOpen score staff).1.masterBars.length ∧
        score.masterBars.length ≤ (barOpen score staff).1.masterBars.length)) ∧
    (∀ (n : Nat) (st : Staff), st.bars.length ≤ n →
       ((consolidateStaff n st).bars.length = n ∧
        (consolidateStaff n st).bars.take st.bars.length = st.bars ∧
        (∀ b ∈ (consolidateStaff n st).bars.drop st.bars.length, isPadBar b))) ∧
    (∀ score : Score,
       (∀ t ∈ score.tracks, ∀ st ∈ t.staves, st.bars.length ≤ score.masterBars.length) →
       ((consolidate score).masterBars = score.masterBars ∧
        ∀ t ∈ (consolidate score).tracks, ∀ st ∈ t.staves,
          st.bars.length = score.masterBars.length)) := by
  refine ⟨?_, ?_, ?_⟩
  · intro score staff h
    simp only [barOpen, newBar]
    split_ifs with hc
    · constructor
      · simp only [addMasterBar, List.length_append, List.length_cons, List.length_nil]
        omega
      · simp [addMasterBar]
    · simp only [List.length_append, List.length_cons, List.length_nil] at hc
      constructor
      · simp only [List.length_append, List.length_cons, List.length_nil]
        omega
      · exact le_refl _
  · intro n st h
    obtain ⟨pad, h1, h2, h3⟩ := consolidateStaff_bars n st
    refine ⟨by rw [h3]; omega, ?_, ?_⟩
    · rw [h1, List.take_left]
    · rw [h1, List.drop_left]
      exact h2
  · intro score hinv
    constructor
    · rfl
    · intro t ht st hst
      simp only [consolidate] at ht
      obtain ⟨t0, ht0, rfl⟩ := List.mem_map.mp ht
      simp only at hst
      obtain ⟨st0, hst0, rfl⟩ := List.mem_map.mp hst
      obtain ⟨pad, h1, h2, h3⟩ := consolidateStaff_bars score.masterBars.length st0
      rw [h3]
      have hle := hinv t0 ht0 st0 hst0
      omega

theorem atex_C1_witness :
    (consolidateStaff 1 ({} : Staff)).bars.length = 1 ∧
    (∀ b ∈ (consolidateStaff 1 ({} : Staff)).bars.drop (({} : Staff)).bars.length, isPadBar b) ∧
    (barOpen ({} : Score) ({} : Staff)).2.bars.length ≤
      (barOpen ({} : Score) ({} : Staff)).1.masterBars.length :=
  ⟨(atex_C1.2.1 1 {} (by decide)).1,
   (atex_C1.2.1 1 {} (by decide)).2.2,
   (atex_C1.1 {} {} (by decide)).1⟩

/-- C4: a failed single-note parse removes the beat from the voice; an
explicit rest produces a kept beat with zero notes that the finalize
step marks empty; after finalize a beat without the empty flag always
holds at least one note (finalize never touches the notes); an empty
bar receives one synthesized beat already marked empty. -/
theorem atex_C4 :
    (∀ (voice : AVoice) (dur : ADuration) (dyn : ADynamicValue),
       beatStep voice (BeatContent.single none) dur dyn = (voice, false)) ∧
    (∀ (voice : AVoice) (dur : ADuration) (dyn : ADynamicValue),
       ∃ restBeat : ABeat,
         (beatStep voice BeatContent.rest dur dyn).1.beats = voice.beats ++ [restBeat] ∧
         restBeat.notes = [] ∧ (finishBeat restBeat).isEmpty = true) ∧
    (∀ b : ABeat, b.notes = [] → (finishBeat b).isEmpty = true) ∧
    (∀ b : ABeat, (finishBeat b).isEmpty = false → b.notes ≠ []) ∧
    (∀ b : ABeat, (finishBeat b).notes = b.notes) ∧
    (∀ voice : AVoice, voice.beats = [] →
       (barFinishVoice voice).beats = [{ notes := [], isEmpty := true }]) := by
  refine ⟨?_, ?_, ?_, ?_, ?_, ?_⟩
  · intro voice dur dyn
    rfl
  · intro voice dur dyn
    refine ⟨{ notes := [], duration := dur, dynamics := dyn }, rfl, rfl, rfl⟩
  · intro b hb
    unfold finishBeat
    rw [if_pos (by rw [hb]; rfl)]
  · intro b hb
    intro hn
    unfold finishBeat at hb
    rw [if_pos (by rw [hn]; rfl)] at hb
    exact Bool.noConfusion hb
  · intro b
    unfold finishBeat
    split_ifs with hc
    · rfl
    · rfl
  · intro voice hv
    unfold barFinishVoice
    rw [if_pos (by rw [hv]; rfl)]

theorem atex_C4_witness :
    beatStep ({} : AVoice) (BeatContent.single none) ADuration.Quarter ADynamicValue.F =
      ({}, false) ∧
    (finishBeat ({ notes := [] } : ABeat)).isEmpty = true ∧
    (barFinishVoice ({ beats := [] } : AVoice)).beats = [{ notes := [], isEmpty := true }] :=
  ⟨atex_C4.1 {} ADuration.Quarter ADynamicValue.F,
   atex_C4.2.2.1 { notes := [] } rfl,
   atex_C4.2.2.2.2.2 { beats := [] } rfl⟩

theorem applyAlternateEnding_preserves (m : AMasterBar) (n : Nat) (m2 : AMasterBar)
    (h : applyAlternateEnding m n = Except.ok m2) :
    m2.index = m.index ∧ m2.tempoAutomations = m.tempoAutomations := by
  unfold applyAlternateEnding at h
  by_cases hc : n < 1
  · rw [if_pos hc] at h
    exact Except.noConfusion h
  · rw [if_neg hc] at h
    cases h
    exact ⟨rfl, rfl⟩

theorem applyAlternateEndings_preserves (ns : List Nat) :
    ∀ (m m2 : AMasterBar), applyAlternateEndings m ns = Except.ok m2 →
      m2.index = m.index ∧ m2.tempoAutomations = m.tempoAutomations := by
  induction ns with
  | nil =>
      intro m m2 h
      cases h
      exact ⟨rfl, rfl⟩
  | cons n rest ih =>
      intro m m2 h
      unfold applyAlternateEndings at h
      cases he : applyAlternateEnding m n with
      | error e =>
          simp only [he] at h
          exact Except.noConfusion h
      | ok m1 =>
          simp only [he] at h
          obtain ⟨h1, h2⟩ := applyAlternateEnding_preserves m n m1 he
          obtain ⟨h3, h4⟩ := ih m1 m2 h
          exact ⟨h3.trans h1, h4.trans h2⟩

theorem applyBarMetaCmd_preserves (m : AMasterBar) (c : BarMetaCmd) (m2 : AMasterBar)
    (h : applyBarMetaCmd m c = Except.ok m2) :
    m2.index = m.index ∧ (c.isTempo = false → m2.tempoAutomations = m.tempoAutomations) := by
  cases c with
  | ts n d =>
      simp only [applyBarMetaCmd] at h
      cases h
      exact ⟨rfl, fun _ => rfl⟩
  | ro =>
      simp only [applyBarMetaCmd] at h
      cases h
      exact ⟨rfl, fun _ => rfl⟩
  | rc n =>
      simp only [applyBarMetaCmd] at h
      by_cases hc : 2048 < n
      · rw [if_pos hc] at h
        exact Except.noConfusion h
      · rw [if_neg hc] at h
        cases h
        exact ⟨rfl, fun _ => rfl⟩
  | ae ns =>
      simp only [applyBarMetaCmd] at h
      obtain ⟨h1, h2⟩ := applyAlternateEndings_preserves ns m m2 h
      exact ⟨h1, fun _ => h2⟩
  | ks s =>
      simp only [applyBarMetaCmd] at h
      cases h
      exact ⟨rfl, fun _ => rfl⟩
  | tempo v =>
      simp only [applyBarMetaCmd] at h
      cases h
      exact ⟨rfl, fun hf => Bool.noConfusion hf⟩
  | tf s =>
      simp only [applyBarMetaCmd] at h
      cases h
      exact ⟨rfl, fun _ => rfl⟩
  | ac =>
      simp only [applyBarMetaCmd] at h
      cases h
      exact ⟨rfl, fun _ => rfl⟩

theorem applyBarMetaCmds_preserves (cs : List BarMetaCmd) :
    ∀ (m m2 : AMasterBar), applyBarMetaCmds m cs = Except.ok m2 →
      m2.index = m.index ∧
      ((∀ c ∈ cs, c.isTempo = false) → m2.tempoAutomations = m.tempoAutomations) := by
  induction cs with
  | nil =>
      intro m m2 h
      cases h
      exact ⟨rfl, fun _ => rfl⟩
  | cons c rest ih =>
      intro m m2 h
      unfold applyBarMetaCmds at h
      cases he : applyBarMetaCmd m c with
      | error e =>
          simp only [he] at h
          exact Except.noConfusion h
      | ok m1 =>
          simp only [he] at h
          obtain ⟨h1, h2⟩ := applyBarMetaCmd_preserves m c m1 he
          obtain ⟨h3, h4⟩ := ih m1 m2 h
          refine ⟨h3.trans h1, ?_⟩
          intro hall
          rw [h4 (fun d hd => hall d (List.mem_cons_of_mem c hd)),
            h2 (hall c (List.mem_cons_self c rest))]

/-- C9: whenever `barMeta` succeeds on the master bar of index 0, that
master bar ends up with at least one tempo automation; and when no
tempo bar meta occurred and the master bar started with none, the
automation appended is exactly one carrying the global score tempo. -/
theorem atex_C9 :
    ∀ (t : Rat) (cs : List BarMetaCmd) (m m2 : AMasterBar),
      m.index = 0 → barMeta t cs m = Except.ok m2 →
      (m2.tempoAutomations ≠ [] ∧
       (m.tempoAutomations = [] → (∀ c ∈ cs, c.isTempo = false) →
         m2.tempoAutomations = [tempoAutomationOf t])) := by
  intro t cs m m2 hidx h
  unfold barMeta at h
  cases he : applyBarMetaCmds m cs with
  | error e =>
      simp only [he] at h
      exact Except.noConfusion h
  | ok m1 =>
      simp only [he] at h
      obtain ⟨h1, h2⟩ := applyBarMetaCmds_preserves cs m m1 he
      by_cases hc : m1.index = 0 ∧ m1.tempoAutomations.length = 0
      · rw [if_pos hc] at h
        cases h
        constructor
        · have : m1.tempoAutomations = [] := List.length_eq_zero.mp hc.2
          rw [this]
          simp
        · intro hm0 hall
          have : m1.tempoAutomations = [] := List.length_eq_zero.mp hc.2
          rw [this]
          rfl
      · rw [if_neg hc] at h
        cases h
        constructor
        · intro hnil
          apply hc
          refine ⟨h1.trans hidx, ?_⟩
          rw [hnil]
          rfl
        · intro hm0 hall
          exfalso
          apply hc
          refine ⟨h1.trans hidx, ?_⟩
          rw [h2 hall, hm0]
          rfl

theorem atex_C9_witness :
    ({} : AMasterBar).index = 0 ∧
    barMeta 120 [] ({} : AMasterBar) =
      Except.ok { ({} : AMasterBar) with tempoAutomations := [tempoAutomationOf 120] } ∧
    ({ ({} : AMasterBar) with
        tempoAutomations := [tempoAutomationOf 120] }).tempoAutomations ≠ [] :=
  ⟨rfl, rfl,
   (atex_C9 120 [] {} { ({} : AMasterBar) with tempoAutomations := [tempoAutomationOf 120] }
     rfl rfl).1⟩

theorem atex_C6_witness :
    (applyBeatRepeat { beats := ([] : List ABeat) ++ [({} : ABeat)] } {} 3).beats.length =
      ([] : List ABeat).length + 3 :=
  (atex_C6 [] {} 3 (by decide)).1

theorem atex_C7_witness :
    (handleTrackMeta { tracks := [{}], masterBars := [] } 0 (some "Lead") none).1.tracks.length
      = 1 ∧
    (handleTrackMeta { tracks := [{}], masterBars := [{}] } 0 (some "Lead") none).1.tracks.length
      = 2 :=
  ⟨(atex_C7 { tracks := [{}], masterBars := [] } 0 (some "Lead") none).1 rfl,
   (atex_C7 { tracks := [{}], masterBars := [{}] } 0 (some "Lead") none).2.1 (by decide)⟩

end AlphaTex
